import Mathlib

/-!
Shallow embedding of `script.py`, a command-line utility that batch-processes
directories of audio files by building ffmpeg/ffprobe invocation strings.

Numbers that Python holds as floats are modelled as exact rationals; Python
integers are modelled as naturals or integers.  Imperative loops are modelled
as fuel-based structural recursions where the fuel provably suffices.
Observable side effects (spawned commands, printed messages, removed paths)
are modelled by the `Effect` type, and fallible operations return `Except`.
-/

namespace FFmpegScript

/-- Observable side effects of the script: running a shell command,
printing a message, removing a directory, removing a file. -/
inductive Effect where
  | run : String → Effect
  | print : String → Effect
  | removeDir : String → Effect
  | removeFile : String → Effect
deriving DecidableEq

/-- Model of `os.path.join(a, b)` for a relative second component. -/
def pathJoin (a b : String) : String := a ++ "/" ++ b

/-- Model of `FFMPEG_TEMPLATE = 'ffmpeg -i "{0}" {1} "{2}"'` instantiated
with the input file, the parameter string and the output file. -/
def ffmpeg_template (input params output : String) : String :=
  "ffmpeg -i \"" ++ input ++ "\" " ++ params ++ " \"" ++ output ++ "\""

/-- Output file names used by the duration-split and concat builders:
`join(new_path, 'output{i}.mp3')`. -/
def output_file (new_path : String) (i : ℕ) : String :=
  pathJoin new_path ("output" ++ Nat.repr i ++ ".mp3")

/-! ### Speed conversion (`convert_` with `op == 'speed'`, script.py lines 80-89) -/

/-- The two tempo stages the speed branch of `convert_` computes from the
requested factor: if `speed_a > 2.0` then `speed_b = speed_a / 2` and
`speed_a = 2.0`, else `speed_b = 1.0`. -/
def tempo_stages (speed_a : ℚ) : ℚ × ℚ :=
  if 2 < speed_a then (2, speed_a / 2) else (speed_a, 1)

/-- The ffmpeg filter parameter string built from the two tempo stages:
`'-filter:a "atempo={0},atempo={1}" -c:a libmp3lame -q:a 4'`. -/
def speed_parameters (f : ℚ) : String :=
  "-filter:a \"atempo=" ++ toString (tempo_stages f).1 ++ ",atempo="
    ++ toString (tempo_stages f).2 ++ "\" -c:a libmp3lame -q:a 4"

/-! ### Argument parsing of the speed factor (`FloatRange`, script.py lines 15-37) -/

/-- Model of the `FloatRange` class: a closed interval used as the
`choices` argument of the speed option. -/
structure FloatRange where
  start : ℚ
  stop : ℚ

/-- Model of `FloatRange.__contains__`: `self.start <= other <= self.end`. -/
def FloatRange.contains (r : FloatRange) (other : ℚ) : Bool :=
  decide (r.start ≤ other) && decide (other ≤ r.stop)

/-- The interval `FloatRange(1.1, 4.0)` passed as `choices` for the speed option. -/
def speed_choices : FloatRange := ⟨1.1, 4⟩

/-- Model of argparse handling of the speed value: argparse checks
`value not in choices` and on failure exits with status 2 and a usage
message; on success the parsed float is kept. -/
def parse_speed (x : ℚ) : Except (ℕ × String) ℚ :=
  if speed_choices.contains x then Except.ok x
  else Except.error (2, "usage: script.py: argument --speed: invalid choice")

/-! ### Parallel command runner (`run_commands`, script.py lines 177-180) -/

/-- The number of workers `run_commands` requests: `cpu_count() - 1`,
computed in unbounded integers (Python has no underflow). -/
def pool_size (cpu_count : ℕ) : ℤ := (cpu_count : ℤ) - 1

/-- Model of `multiprocessing.dummy.Pool(processes)`: raises
`ValueError` when `processes < 1`, otherwise yields a pool of that size. -/
def mkPool (processes : ℤ) : Except String ℤ :=
  if processes < 1 then Except.error "ValueError: Number of processes must be at least 1"
  else Except.ok processes

/-- The pool construction performed by `run_commands`:
`Pool(cpu_count() - 1)`. -/
def run_commands_pool (cpu_count : ℕ) : Except String ℤ :=
  mkPool (pool_size cpu_count)

/-! ### Duration split (`convert_duration`, script.py lines 103-124) -/

/-- Python's `%` on numbers: for a positive modulus this is
`a - b * floor(a / b)`, the remainder with the sign of `b`. -/
def pyMod (a b : ℚ) : ℚ := a - b * ⌊a / b⌋

/-- Python's built-in `round` on a number: round half to even. -/
def pyRound (q : ℚ) : ℤ :=
  if q - ⌊q⌋ < 1 / 2 then ⌊q⌋
  else if 1 / 2 < q - ⌊q⌋ then ⌊q⌋ + 1
  else if 2 ∣ ⌊q⌋ then ⌊q⌋ else ⌊q⌋ + 1

/-- The loop of `convert_duration` building `start_duration_filename`:
iterates `i` from `0` to `num_files - 1`; on the final index the running
`duration` is increased by `total_duration % duration` before the triple
`(start, duration, output_file)` is appended, and `start` is advanced by
the (possibly increased) `duration` after each append.  The fuel argument
is structural; callers pass `n` so the whole range is traversed. -/
def splitLoop (T : ℚ) (np : String) (n : ℕ) : ℕ → ℕ → ℚ → ℚ → List (ℚ × ℚ × String)
  | 0, _, _, _ => []
  | fuel + 1, i, start, d =>
    if i < n then
      (fun d' => (start, d', output_file np i) :: splitLoop T np n fuel (i + 1) (start + d') d')
        (if i = n - 1 then d + pyMod T d else d)
    else []

/-- The split directives `convert_duration` derives from the probed total
duration `T` and the target duration `d`:
`num_files = round(total_duration / duration)` followed by the loop above. -/
def convert_duration_segments (T d : ℚ) (np : String) : List (ℚ × ℚ × String) :=
  splitLoop T np (pyRound (T / d)).toNat (pyRound (T / d)).toNat 0 0 d

/-- The ffmpeg commands `_split_file` builds from the `(start, duration,
output_file)` triples: `'-acodec copy -t {duration} -ss {start}'`. -/
def split_file_commands (path : String) (sdf : List (ℚ × ℚ × String)) : List String :=
  sdf.map (fun x =>
    ffmpeg_template path ("-acodec copy -t " ++ toString x.2.1 ++ " -ss " ++ toString x.1) x.2.2)

/-! ### Chapter split (`split_chapters`, script.py lines 127-139) -/

/-- One entry of the ffprobe chapter list: fields `start_time`, `end_time`
and `tags.title`. -/
structure Chapter where
  start_time : ℚ
  end_time : ℚ
  title : String

/-- Model of `split_chapters`.  The directory listing and the probed
chapter list are inputs; `glob(old_path + '/*')[0]` raises `IndexError`
on an empty listing, otherwise one split command per chapter is built
(start = `start_time`, duration = `end_time - start_time`, output name
from the title tag) and handed to the runner.  The returned effect list
is exhaustive: the function prints nothing and removes nothing. -/
def split_chapters (files : List String) (chapters : List Chapter) (new_path : String) :
    Except String (List Effect) :=
  match files with
  | [] => Except.error "IndexError: list index out of range"
  | filename :: _ =>
    Except.ok ((split_file_commands filename
      (chapters.map (fun c =>
        (c.start_time, c.end_time - c.start_time, pathJoin new_path (c.title ++ ".mp3"))))).map
      Effect.run)

/-! ### Concatenation (`concat_files`, script.py lines 142-155) -/

/-- Python's `range(start, stop, step)` for a positive step, written with
structural fuel; `fuel = stop` always suffices when `1 ≤ step`. -/
def pyRangeUp : ℕ → ℕ → ℕ → ℕ → List ℕ
  | 0, _, _, _ => []
  | fuel + 1, start, stop, step =>
    if start < stop then start :: pyRangeUp fuel (start + step) stop step else []

/-- Python's slice `l[i:i+len]`. -/
def list_slice {α : Type} (l : List α) (i len : ℕ) : List α := (l.drop i).take len

/-- Model of `concat_files`: a zero `batch_size` is replaced by the number
of files; `range(0, len(files), batch_size)` raises `ValueError` when its
step is zero (no files and default batch size); otherwise the files are
cut into consecutive slices of `batch_size` and each batch is paired with
the numbered output file. -/
def concat_files (files : List String) (new_path : String) (batch_size : ℕ) :
    Except String (List (List String × String)) :=
  (fun bs =>
    if bs = 0 then Except.error "ValueError: range() arg 3 must not be zero"
    else
      Except.ok (((pyRangeUp files.length 0 files.length bs).map
          (fun i => list_slice files i bs)).enum.map
        (fun p => (p.2, output_file new_path p.1))))
  (if batch_size = 0 then files.length else batch_size)

/-- The ffmpeg commands `_concat_files` builds: input
`'concat:' + '|'.join(input_list)` with `-acodec copy`. -/
def concat_commands (input_output_list : List (List String × String)) : List String :=
  input_output_list.map (fun p =>
    ffmpeg_template ("concat:" ++ String.intercalate "|" p.1) "-acodec copy" p.2)

/-! ### Type conversion output names (`convert_` with `op == 'type'`, script.py lines 90-98) -/

/-- Python's `str.replace` on character lists: scans left to right and
replaces every non-overlapping occurrence of `pattern` by `repl`.  The
fuel is structural; `fuel = s.length` suffices for a nonempty pattern. -/
def pyReplaceAux (pattern repl : List Char) : ℕ → List Char → List Char
  | 0, s => s
  | fuel + 1, s =>
    if pattern.isPrefixOf s then repl ++ pyReplaceAux pattern repl fuel (s.drop pattern.length)
    else
      match s with
      | [] => []
      | c :: s' => c :: pyReplaceAux pattern repl fuel s'

/-- Python's `s.replace(pattern, repl)` for strings. -/
def pyReplace (s pattern repl : String) : String :=
  List.asString (pyReplaceAux pattern.data repl.data s.data.length s.data)

/-- Model of `os.path.basename`: the part of the path after the last
slash. -/
def basename (p : String) : String :=
  List.asString ((p.data.reverse.takeWhile (fun c => c ≠ '/')).reverse)

/-- The output file the type branch of `convert_` assigns to an input:
`join(new_path, basename(input_f).replace('.m4a', '.mp3'))`. -/
def type_output_file (new_path input_f : String) : String :=
  pathJoin new_path (pyReplace (basename input_f) ".m4a" ".mp3")

/-! ### Output directory allocation (`directory_setup`, script.py lines 59-71) -/

/-- The sequence of directory names `directory_setup` tries: first
`'new' + path`, then `'new' + str(i) + path` for `i = 2, 3, ...`. -/
def candidate (path : String) : ℕ → String
  | 0 => "new" ++ path
  | k + 1 => "new" ++ Nat.repr (k + 2) ++ path

/-- The retry loop of `directory_setup` against a fixed set of existing
directories: `makedirs` fails exactly on the names present in `existing`,
and each failure moves to the next candidate.  The fuel is structural;
`existing.length + 1` attempts provably suffice. -/
def directory_setup_loop (path : String) (existing : List String) : ℕ → ℕ → Option String
  | 0, _ => none
  | fuel + 1, k =>
    if candidate path k ∈ existing then directory_setup_loop path existing fuel (k + 1)
    else some (candidate path k)

/-- Model of `directory_setup` run against a fixed set of directories
existing on disk at call time. -/
def directory_setup (path : String) (existing : List String) : Option String :=
  directory_setup_loop path existing (existing.length + 1) 0

/-! ## Theorems -/

/-- Claim C4 (confirmed): for every factor above the single-stage bound 2.0
the two generated tempo stages are exactly (2, f / 2) and multiply back to
f; for every factor in the accepted band up to 2.0 the stages are (f, 1)
and also multiply to f. -/
theorem tempo_stages_spec (f : ℚ) :
    (2 < f → tempo_stages f = (2, f / 2) ∧ (tempo_stages f).1 * (tempo_stages f).2 = f) ∧
    (1.1 ≤ f → f ≤ 2 → tempo_stages f = (f, 1) ∧ (tempo_stages f).1 * (tempo_stages f).2 = f) := by
  constructor
  · intro h
    have he : tempo_stages f = (2, f / 2) := by simp [tempo_stages, h]
    refine ⟨he, ?_⟩
    rw [he]
    show 2 * (f / 2) = f
    ring
  · intro h1 h2
    have he : tempo_stages f = (f, 1) := by simp [tempo_stages, not_lt.mpr h2]
    refine ⟨he, ?_⟩
    rw [he]
    show f * 1 = f
    ring

/-- Witness for C4: the stages for the factors 3 and 1.5. -/
theorem tempo_stages_spec_witness :
    (tempo_stages 3 = (2, 3 / 2) ∧ (tempo_stages 3).1 * (tempo_stages 3).2 = 3) ∧
    (tempo_stages 1.5 = (1.5, 1) ∧ (tempo_stages 1.5).1 * (tempo_stages 1.5).2 = 1.5) :=
  ⟨(tempo_stages_spec 3).1 (by norm_num), (tempo_stages_spec 1.5).2 (by norm_num) (by norm_num)⟩

/-- Claim C7 (confirmed): every speed value inside the closed interval
from 1.1 to 4.0 is accepted by parsing, and every value outside it is
rejected at parse time with a nonzero exit status and a usage message. -/
theorem parse_speed_spec (f : ℚ) :
    (1.1 ≤ f → f ≤ 4 → parse_speed f = Except.ok f) ∧
    (¬ (1.1 ≤ f ∧ f ≤ 4) → ∃ msg, parse_speed f = Except.error (2, msg) ∧ (2 : ℕ) ≠ 0) := by
  have hc : speed_choices.contains f = true ↔ (1.1 ≤ f ∧ f ≤ 4) := by
    simp [FloatRange.contains, speed_choices]
  constructor
  · intro h1 h2
    rw [parse_speed, if_pos (hc.mpr ⟨h1, h2⟩)]
  · intro h
    exact ⟨_, by rw [parse_speed, if_neg (fun hcon => h (hc.mp hcon))], by norm_num⟩

/-- Witness for C7: the value 2 is accepted, the value 5 is rejected. -/
theorem parse_speed_spec_witness :
    parse_speed 2 = Except.ok 2 ∧
    (∃ msg, parse_speed 5 = Except.error (2, msg) ∧ (2 : ℕ) ≠ 0) :=
  ⟨(parse_speed_spec 2).1 (by norm_num) (by norm_num), (parse_speed_spec 5).2 (by norm_num)⟩

/-- Counterexample for C3: on a single-CPU machine the runner requests a
pool of zero workers and pool creation fails, contradicting the claimed
minimum of one worker. -/
theorem run_commands_pool_counterexample :
    run_commands_pool 1 = Except.error "ValueError: Number of processes must be at least 1" := rfl

/-- Claim C3 (corrected): the requested pool size is exactly the CPU count
minus one with no lower bound: with at least two CPUs the pool is created
with cpu_count - 1 (which is then at least 1) workers, but with one CPU
the requested size is 0 and Pool construction raises ValueError. -/
theorem run_commands_pool_spec (c : ℕ) :
    (2 ≤ c → run_commands_pool c = Except.ok ((c : ℤ) - 1) ∧ 1 ≤ (c : ℤ) - 1) ∧
    (c ≤ 1 →
      run_commands_pool c = Except.error "ValueError: Number of processes must be at least 1") := by
  constructor
  · intro h
    have h1 : ¬ ((c : ℤ) - 1 < 1) := by omega
    exact ⟨by simp [run_commands_pool, mkPool, pool_size, h1], by omega⟩
  · intro h
    have h1 : (c : ℤ) - 1 < 1 := by omega
    simp [run_commands_pool, mkPool, pool_size, h1]

/-- Witness for C3: four CPUs give a pool of three workers, one CPU makes
pool creation fail. -/
theorem run_commands_pool_spec_witness :
    (run_commands_pool 4 = Except.ok ((4 : ℤ) - 1) ∧ 1 ≤ (4 : ℤ) - 1) ∧
    run_commands_pool 1 = Except.error "ValueError: Number of processes must be at least 1" :=
  ⟨by simpa using (run_commands_pool_spec 4).1 (by norm_num),
   (run_commands_pool_spec 1).2 (by norm_num)⟩

/-- Counterexample for C2: with one file present and an empty chapter
list, the operation yields no effects at all, so in particular the message
"Chapters Not Found" is never printed and the output directory is not
removed, contrary to the claim. -/
theorem split_chapters_counterexample :
    split_chapters ["dir/in.mp3"] [] "newdir" = Except.ok [] ∧
    Effect.print "Chapters Not Found" ∉ ([] : List Effect) ∧
    Effect.removeDir "newdir" ∉ ([] : List Effect) :=
  ⟨rfl, by simp, by simp⟩

/-- Claim C2 (corrected): when the probed chapter list is empty no Job is
produced, but nothing else happens either: the function performs no
effect, prints no message and removes no directory. -/
theorem split_chapters_empty_chapters (filename : String) (rest : List String) (np : String) :
    split_chapters (filename :: rest) [] np = Except.ok [] := rfl

/-- Claim C9 (confirmed): on an input directory with no files the chapter
split indexes the empty glob result and raises IndexError. -/
theorem split_chapters_empty_dir (chapters : List Chapter) (np : String) :
    split_chapters [] chapters np = Except.error "IndexError: list index out of range" := rfl

/-- Claim C8 (confirmed): concatenation over zero matching files with the
default batch size reaches range(0, 0, 0), whose zero step raises
ValueError instead of succeeding with an empty Job list. -/
theorem concat_files_empty_default :
    concat_files [] "newpath" 0 = Except.error "ValueError: range() arg 3 must not be zero" := rfl

/-- Once the loop index reaches the number of files, no further segment is
produced, whatever the fuel and the running state. -/
lemma splitLoop_stop (T : ℚ) (np : String) (n fuel i : ℕ) (start d : ℚ) (h : n ≤ i) :
    splitLoop T np n fuel i start d = [] := by
  cases fuel with
  | zero => rfl
  | succ fuel => simp [splitLoop, Nat.not_lt.mpr h]

/-- Closed form of the `convert_duration` loop: starting at index `i` with
offset `i * d`, it emits one triple per index up to `n - 1`, each with
start `j * d`, duration `d` except for the final index whose duration is
`d + (T mod d)`. -/
lemma splitLoop_closed (T d : ℚ) (np : String) (n : ℕ) :
    ∀ fuel i, n - i ≤ fuel →
      splitLoop T np n fuel i ((i : ℚ) * d) d =
        (List.range' i (n - i)).map
          (fun (j : ℕ) => ((j : ℚ) * d, if j = n - 1 then d + pyMod T d else d, output_file np j)) := by
  intro fuel
  induction fuel with
  | zero =>
    intro i h
    have h0 : n - i = 0 := by omega
    rw [h0]
    rfl
  | succ fuel ih =>
    intro i h
    by_cases hin : i < n
    · have hne : n - i = (n - (i + 1)) + 1 := by omega
      rw [hne, List.range'_succ]
      by_cases hlast : i = n - 1
      · have hn1 : n - (i + 1) = 0 := by omega
        rw [hn1, List.range'_zero]
        simp only [splitLoop, if_pos hin, if_pos hlast, List.map_cons, List.map_nil]
        rw [splitLoop_stop T np n fuel (i + 1) _ _ (by omega)]
      · simp only [splitLoop, if_pos hin, if_neg hlast, List.map_cons]
        have hcast : (i : ℚ) * d + d = ((i + 1 : ℕ) : ℚ) * d := by push_cast; ring
        rw [hcast, ih (i + 1) (by omega)]
    · have h0 : n - i = 0 := by omega
      rw [h0, List.range'_zero, List.map_nil]
      exact splitLoop_stop T np n _ i _ d (by omega)

/-- Claim C1 (corrected): the duration-split builder produces
`num_files = round(T / d)` (Python round, half to even) directives; the
directive for index j starts at `j * d`, so consecutive start offsets
tile the timeline from 0 in steps of d; every directive except the last
has duration d, and the last directive's duration is `d + (T mod d)`,
not the bare remainder.  Consequently the durations sum to
`num_files * d + (T mod d)`, which equals T exactly when `round(T / d)`
equals `floor(T / d)`, and exceeds T by d when rounding went up, as it
does for T = 90, d = 60. -/
theorem convert_duration_segments_spec (T d : ℚ) (np : String)
    (h1 : 1 ≤ (pyRound (T / d)).toNat) :
    convert_duration_segments T d np =
      (List.range (pyRound (T / d)).toNat).map
        (fun (j : ℕ) => ((j : ℚ) * d,
          if j = (pyRound (T / d)).toNat - 1 then d + pyMod T d else d,
          output_file np j)) ∧
    ((convert_duration_segments T d np).map (fun s => s.2.1)).sum =
      ((pyRound (T / d)).toNat : ℚ) * d + pyMod T d ∧
    (pyRound (T / d) = ⌊T / d⌋ →
      ((convert_duration_segments T d np).map (fun s => s.2.1)).sum = T) := by
  set n := (pyRound (T / d)).toNat with hn
  have hclosed : convert_duration_segments T d np =
      (List.range n).map (fun (j : ℕ) => ((j : ℚ) * d,
        if j = n - 1 then d + pyMod T d else d, output_file np j)) := by
    have h := splitLoop_closed T d np n n 0 (by omega)
    rw [convert_duration_segments]
    simpa [List.range_eq_range'] using h
  have hsum : ((convert_duration_segments T d np).map (fun s => s.2.1)).sum
      = (n : ℚ) * d + pyMod T d := by
    rw [hclosed, List.map_map]
    have hfun : ((fun s : ℚ × ℚ × String => s.2.1) ∘
        (fun j : ℕ => ((j : ℚ) * d, if j = n - 1 then d + pyMod T d else d, output_file np j)))
        = fun j => if j = n - 1 then d + pyMod T d else d := by
      funext j
      rfl
    rw [hfun]
    obtain ⟨m, hm⟩ : ∃ m, n = m + 1 := ⟨n - 1, by omega⟩
    rw [hm, List.range_succ, List.map_append, List.sum_append]
    simp only [List.map_cons, List.map_nil, List.sum_cons, List.sum_nil]
    rw [if_pos (show m = m + 1 - 1 from rfl)]
    have hrest : (List.range m).map (fun j => if j = m + 1 - 1 then d + pyMod T d else d)
        = (List.range m).map (fun _ => d) := by
      apply List.map_congr_left
      intro j hj
      rw [List.mem_range] at hj
      rw [if_neg (by omega)]
    rw [hrest]
    simp only [List.map_const', List.sum_replicate, List.length_range, nsmul_eq_mul]
    push_cast
    ring
  refine ⟨hclosed, hsum, ?_⟩
  intro hround
  rw [hsum, pyMod]
  have hz : ((n : ℕ) : ℤ) = ⌊T / d⌋ := by omega
  have hcast : ((n : ℕ) : ℚ) = ((⌊T / d⌋ : ℤ) : ℚ) := by
    rw [← hz]
    norm_cast
  rw [hcast]
  ring

/-- Counterexample for C1: for T = 90 and d = 60 the two directives are
(start 0, duration 60) and (start 60, duration 90): the second directive
is not the claimed segment of duration 30, and the durations sum to 150,
not to the total duration 90. -/
theorem convert_duration_segments_counterexample :
    (convert_duration_segments 90 60 "newdir").map (fun s => (s.1, s.2.1)) = [(0, 60), (60, 90)] ∧
    ((convert_duration_segments 90 60 "newdir").map (fun s => s.2.1)).sum = 150 ∧
    ((60 : ℚ), (90 : ℚ)) ≠ ((60 : ℚ), (30 : ℚ)) ∧ (150 : ℚ) ≠ 90 := by
  have h2 : (pyRound ((90 : ℚ) / 60)).toNat = 2 := by
    have h : pyRound ((90 : ℚ) / 60) = 2 := by norm_num [pyRound]
    rw [h]
    rfl
  refine ⟨?_, ?_, by norm_num, by norm_num⟩ <;>
    rw [convert_duration_segments, h2] <;>
    norm_num [splitLoop, pyMod]

/-- Witness for C1: for T = 70 and d = 60 rounding goes down, there is one
directive and the durations sum to the probed total exactly. -/
theorem convert_duration_segments_spec_witness :
    1 ≤ (pyRound ((70 : ℚ) / 60)).toNat ∧
    pyRound ((70 : ℚ) / 60) = ⌊(70 : ℚ) / 60⌋ ∧
    ((convert_duration_segments 70 60 "newdir2").map (fun s => s.2.1)).sum = 70 := by
  have ha : 1 ≤ (pyRound ((70 : ℚ) / 60)).toNat := by
    have h : pyRound ((70 : ℚ) / 60) = 1 := by norm_num [pyRound]
    rw [h]
    rfl
  have hb : pyRound ((70 : ℚ) / 60) = ⌊(70 : ℚ) / 60⌋ := by norm_num [pyRound]
  exact ⟨ha, hb, (convert_duration_segments_spec 70 60 "newdir2" ha).2.2 hb⟩

/-- A range whose start has reached the stop bound is empty, whatever the
fuel. -/
lemma pyRangeUp_nil (fuel start stop step : ℕ) (h : stop ≤ start) :
    pyRangeUp fuel start stop step = [] := by
  cases fuel with
  | zero => rfl
  | succ fuel => simp [pyRangeUp, Nat.not_lt.mpr h]

/-- Concatenating the slices taken at the indices of
`range(start, len(files), bs)` recovers the files from `start` on. -/
lemma pyRangeUp_chunks_flatten {α : Type} (files : List α) (bs : ℕ) (hbs : 1 ≤ bs) :
    ∀ fuel start, files.length - start ≤ fuel →
      ((pyRangeUp fuel start files.length bs).map (fun i => list_slice files i bs)).flatten
        = files.drop start := by
  intro fuel
  induction fuel with
  | zero =>
    intro start h
    rw [pyRangeUp, List.map_nil, List.flatten_nil, List.drop_eq_nil_of_le (by omega)]
  | succ fuel ih =>
    intro start h
    by_cases hlt : start < files.length
    · rw [pyRangeUp, if_pos hlt, List.map_cons, List.flatten_cons, ih (start + bs) (by omega)]
      rw [list_slice, show files.drop (start + bs) = (files.drop start).drop bs from
        (List.drop_drop bs start files).symm, List.take_append_drop]
    · rw [pyRangeUp, if_neg hlt, List.map_nil, List.flatten_nil,
        List.drop_eq_nil_of_le (by omega)]

/-- Mapping first components over the enumerated pairing of batches with
their numbered output files recovers the batches. -/
lemma enum_pair_map_fst {α β : Type} (l : List α) (out : ℕ → β) :
    (l.enum.map (fun p => (p.2, out p.1))).map Prod.fst = l := by
  rw [List.map_map]
  calc l.enum.map (Prod.fst ∘ fun p => (p.2, out p.1))
      = l.enum.map Prod.snd := List.map_congr_left (fun a _ => rfl)
    _ = l := List.enum_map_snd l

/-- Counterexample for C6: under the default batch size with an empty
file list the builder does not make one (empty) batch of all files, it
raises ValueError from the zero range step. -/
theorem concat_files_counterexample :
    concat_files [] "newdir" 0 = Except.error "ValueError: range() arg 3 must not be zero" := rfl

/-- Claim C6 (corrected): for every configured batch size of at least 1
the builder succeeds, every input file appears in exactly one batch (for
a duplicate-free listing), the batches concatenate back to the sorted
input list, and no batch exceeds the configured size; the default batch
size makes one batch of all files provided at least one file is present,
while with zero files it raises ValueError (see C8). -/
theorem concat_files_spec (files : List String) (np : String) :
    (∀ bs : ℕ, 1 ≤ bs → ∃ pairs,
      concat_files files np bs = Except.ok pairs ∧
      (pairs.map Prod.fst).flatten = files ∧
      (∀ p ∈ pairs, p.1.length ≤ bs) ∧
      (files.Nodup → ∀ x ∈ files, ((pairs.map Prod.fst).map (fun b => b.count x)).sum = 1)) ∧
    (files ≠ [] → concat_files files np 0 = Except.ok [(files, output_file np 0)]) := by
  constructor
  · intro bs hbs
    have hbs0 : ¬ (bs = 0) := by omega
    have hflat := pyRangeUp_chunks_flatten files bs hbs files.length 0 (by omega)
    rw [List.drop_zero] at hflat
    refine ⟨((pyRangeUp files.length 0 files.length bs).map
      (fun i => list_slice files i bs)).enum.map (fun p => (p.2, output_file np p.1)),
      ?_, ?_, ?_, ?_⟩
    · rw [concat_files, if_neg hbs0]
      simp only [if_neg hbs0]
    · rw [enum_pair_map_fst]
      exact hflat
    · intro p hp
      obtain ⟨q, hq, rfl⟩ := List.mem_map.mp hp
      have hq2 : q.2 ∈ (pyRangeUp files.length 0 files.length bs).map
          (fun i => list_slice files i bs) := by
        have := List.mem_map_of_mem Prod.snd hq
        rwa [List.enum_map_snd] at this
      obtain ⟨i, _, hsl⟩ := List.mem_map.mp hq2
      show q.2.length ≤ bs
      rw [← hsl, list_slice]
      exact List.length_take_le bs _
    · intro hnd x hx
      rw [enum_pair_map_fst]
      calc (((pyRangeUp files.length 0 files.length bs).map
              (fun i => list_slice files i bs)).map (fun b => b.count x)).sum
          = List.count x ((pyRangeUp files.length 0 files.length bs).map
              (fun i => list_slice files i bs)).flatten := (List.count_flatten x _).symm
        _ = List.count x files := by rw [hflat]
        _ = 1 := List.count_eq_one_of_mem hnd hx
  · intro hne
    obtain ⟨a, rest, rfl⟩ : ∃ a rest, files = a :: rest := by
      cases files with
      | nil => exact absurd rfl hne
      | cons a rest => exact ⟨a, rest, rfl⟩
    rw [concat_files]
    have hsel : (if (0 : ℕ) = 0 then (a :: rest).length else 0) = rest.length + 1 := by simp
    rw [hsel]
    beta_reduce
    simp only [List.length_cons]
    rw [if_neg (by omega : ¬ (rest.length + 1 = 0)), pyRangeUp,
      if_pos (by omega : 0 < rest.length + 1), pyRangeUp_nil _ _ _ _ (by omega)]
    simp [list_slice]

/-- Witness for C6: three files in batches of two give batches [a; b] and
[c]; one file with the default batch size gives a single batch. -/
theorem concat_files_spec_witness :
    (∃ pairs, concat_files ["a.mp3", "b.mp3", "c.mp3"] "newdir3" 2 = Except.ok pairs ∧
      (pairs.map Prod.fst).flatten = ["a.mp3", "b.mp3", "c.mp3"] ∧
      (∀ p ∈ pairs, p.1.length ≤ 2) ∧
      ((["a.mp3", "b.mp3", "c.mp3"] : List String).Nodup →
        ∀ x ∈ (["a.mp3", "b.mp3", "c.mp3"] : List String),
          ((pairs.map Prod.fst).map (fun b => b.count x)).sum = 1)) ∧
    concat_files ["a.mp3"] "newdir3" 0 = Except.ok [(["a.mp3"], output_file "newdir3" 0)] :=
  ⟨(concat_files_spec ["a.mp3", "b.mp3", "c.mp3"] "newdir3").1 2 (by norm_num),
   (concat_files_spec ["a.mp3"] "newdir3").2 (by simp)⟩

/-- Replacing in an empty character list leaves it empty, whatever the
fuel. -/
lemma pyReplaceAux_nil (p r : List Char) (fuel : ℕ) (hp : p ≠ []) :
    pyReplaceAux p r fuel [] = [] := by
  cases fuel with
  | zero => rfl
  | succ fuel =>
    cases p with
    | nil => exact absurd rfl hp
    | cons x xs => rfl

/-- When the pattern ".m4a" occurs in `s ++ ".m4a"` only as the final
four characters, the scan copies all of `s` verbatim and replaces the
final occurrence. -/
lemma pyReplaceAux_only_final (r : List Char) :
    ∀ (s : List Char) (fuel : ℕ), (s ++ ".m4a".data).length ≤ fuel →
      (∀ u ∈ s.tails, u ≠ [] → ¬ (".m4a".data <+: (u ++ ".m4a".data))) →
      pyReplaceAux ".m4a".data r fuel (s ++ ".m4a".data) = s ++ r := by
  intro s
  induction s with
  | nil =>
    intro fuel hf _
    obtain ⟨f, rfl⟩ : ∃ f, fuel = f + 1 := by
      cases fuel with
      | zero => exact absurd hf (by decide)
      | succ f => exact ⟨f, rfl⟩
    rw [List.nil_append, pyReplaceAux, if_pos (by decide :
      (".m4a".data.isPrefixOf ".m4a".data) = true)]
    rw [List.drop_length, pyReplaceAux_nil ".m4a".data r f (by decide)]
    simp
  | cons c s' ih =>
    intro fuel hf hocc
    obtain ⟨f, rfl⟩ : ∃ f, fuel = f + 1 := by
      cases fuel with
      | zero =>
        exfalso
        rw [List.length_append, List.length_cons] at hf
        omega
      | succ f => exact ⟨f, rfl⟩
    have hnp : ¬ ((".m4a".data.isPrefixOf ((c :: s') ++ ".m4a".data)) = true) := by
      rw [List.isPrefixOf_iff_prefix]
      exact hocc (c :: s') ((List.mem_tails _ _).mpr (List.suffix_refl _)) (by simp)
    rw [List.cons_append, pyReplaceAux]
    rw [List.cons_append] at hnp
    rw [if_neg hnp]
    show c :: pyReplaceAux ".m4a".data r f (s' ++ ".m4a".data) = c :: (s' ++ r)
    have hbound : (s' ++ ".m4a".data).length ≤ f := by
      rw [List.length_append] at hf ⊢
      rw [List.length_cons] at hf
      omega
    have hocc' : ∀ u ∈ s'.tails, u ≠ [] → ¬ (".m4a".data <+: (u ++ ".m4a".data)) := by
      intro u hu hne
      refine hocc u ((List.mem_tails _ _).mpr ?_) hne
      exact ((List.mem_tails _ _).mp hu).trans (List.suffix_cons c s')
    rw [ih f hbound hocc']

/-- Counterexample for C10: for the basename "a.m4a.m4a", whose ".m4a"
occurs before the final extension as well, the code replaces every
occurrence, producing "a.mp3.mp3"; the claim's first-occurrence semantics
would give "a.mp3.m4a", and the result does not end in ".m4a". -/
theorem type_output_counterexample :
    pyReplace (basename "a.m4a.m4a") ".m4a" ".mp3" = "a.mp3.mp3" ∧
    pyReplace (basename "a.m4a.m4a") ".m4a" ".mp3" ≠ "a.mp3.m4a" ∧
    (".m4a".data.isSuffixOf (pyReplace (basename "a.m4a.m4a") ".m4a" ".mp3").data) = false :=
  ⟨by decide, by decide, by decide⟩

/-- Claim C10 (corrected): the type-conversion output name is the
basename with every occurrence of ".m4a" replaced by ".mp3" (Python
str.replace replaces all occurrences, not only the first).  When ".m4a"
occurs only as the final extension the result is the pure extension
swap; when it also occurs earlier, every occurrence is replaced, so the
result differs from the pure swap and ends in ".mp3", not ".m4a". -/
theorem type_output_replace_spec :
    (∀ (np input_f : String),
      type_output_file np input_f = pathJoin np (pyReplace (basename input_f) ".m4a" ".mp3")) ∧
    ∀ s : List Char,
      (∀ u ∈ s.tails, u ≠ [] → ¬ (".m4a".data <+: (u ++ ".m4a".data))) →
      pyReplace (List.asString (s ++ ".m4a".data)) ".m4a" ".mp3"
        = List.asString (s ++ ".mp3".data) := by
  refine ⟨fun np input_f => rfl, fun s h => ?_⟩
  show List.asString (pyReplaceAux ".m4a".data ".mp3".data
    (s ++ ".m4a".data).length (s ++ ".m4a".data)) = List.asString (s ++ ".mp3".data)
  rw [pyReplaceAux_only_final ".mp3".data s _ le_rfl h]

/-- Witness for C10: the basename "a.m4a" has ".m4a" only as its final
extension and is renamed to "a.mp3". -/
theorem type_output_replace_spec_witness :
    (∀ u ∈ ("a".data).tails, u ≠ [] → ¬ (".m4a".data <+: (u ++ ".m4a".data))) ∧
    pyReplace (List.asString ("a".data ++ ".m4a".data)) ".m4a" ".mp3"
      = List.asString ("a".data ++ ".mp3".data) :=
  ⟨by decide, type_output_replace_spec.2 "a".data (by decide)⟩

/-- Decimal value of a digit string, the left inverse used to show that
decimal printing of naturals is injective. -/
def val10 (l : List Char) : ℕ := l.foldl (fun a c => 10 * a + (c.toNat - 48)) 0

/-- The character printed for a single decimal digit decodes back to that
digit. -/
lemma digitChar_val (m : ℕ) (h : m < 10) : (Nat.digitChar m).toNat - 48 = m := by
  interval_cases m <;> rfl

/-- The digit accumulator of core's decimal printer only prepends to its
tail argument. -/
lemma toDigitsCore_append (b : ℕ) :
    ∀ (fuel n : ℕ) (ds : List Char),
      Nat.toDigitsCore b fuel n ds = Nat.toDigitsCore b fuel n [] ++ ds := by
  intro fuel
  induction fuel with
  | zero => intro n ds; rfl
  | succ fuel ih =>
    intro n ds
    simp only [Nat.toDigitsCore]
    by_cases h : n / b = 0
    · simp [h]
    · rw [if_neg h, if_neg h, ih (n / b) (Nat.digitChar (n % b) :: ds),
        ih (n / b) [Nat.digitChar (n % b)]]
      simp

/-- Folding the decimal decoder over the printed digits of n recovers n,
shifted past any previously accumulated value. -/
lemma val10_toDigitsCore :
    ∀ (fuel n a : ℕ), n < fuel →
      List.foldl (fun acc c => 10 * acc + (c.toNat - 48)) a (Nat.toDigitsCore 10 fuel n []) =
        a * 10 ^ (Nat.toDigitsCore 10 fuel n []).length + n := by
  intro fuel
  induction fuel with
  | zero => intro n a h; exact absurd h (Nat.not_lt_zero n)
  | succ fuel ih =>
    intro n a h
    by_cases h0 : n / 10 = 0
    · have heq : Nat.toDigitsCore 10 (fuel + 1) n [] = [Nat.digitChar (n % 10)] := by
        simp only [Nat.toDigitsCore]
        rw [if_pos h0]
      have hlt : n < 10 := by omega
      rw [heq]
      simp only [List.foldl_cons, List.foldl_nil, List.length_cons, List.length_nil]
      rw [Nat.mod_eq_of_lt hlt, digitChar_val n hlt]
      ring
    · have heq : Nat.toDigitsCore 10 (fuel + 1) n [] =
          Nat.toDigitsCore 10 fuel (n / 10) [] ++ [Nat.digitChar (n % 10)] := by
        simp only [Nat.toDigitsCore]
        rw [if_neg h0]
        exact toDigitsCore_append 10 fuel (n / 10) [Nat.digitChar (n % 10)]
      have hfuel : n / 10 < fuel := by omega
      rw [heq, List.foldl_append, ih (n / 10) a hfuel]
      simp only [List.foldl_cons, List.foldl_nil, List.length_append, List.length_cons,
        List.length_nil]
      rw [digitChar_val (n % 10) (by omega)]
      have hdm : 10 * (n / 10) + n % 10 = n := by omega
      set L := (Nat.toDigitsCore 10 fuel (n / 10) []).length with hL
      conv_rhs => rw [← hdm]
      ring

/-- Decoding the decimal digits of n gives back n. -/
lemma val10_toDigits (n : ℕ) : val10 (Nat.toDigits 10 n) = n := by
  have h := val10_toDigitsCore (n + 1) n 0 (Nat.lt_succ_self n)
  simpa [val10, Nat.toDigits] using h

/-- Decimal printing of naturals is injective. -/
lemma repr_injective : Function.Injective Nat.repr := by
  intro a b h
  have hd : Nat.toDigits 10 a = Nat.toDigits 10 b := congrArg String.data h
  have hv := congrArg val10 hd
  rwa [val10_toDigits, val10_toDigits] at hv

/-- A natural number prints as at least one character. -/
lemma toDigits_ne_nil (n : ℕ) : Nat.toDigits 10 n ≠ [] := by
  rw [Nat.toDigits]
  simp only [Nat.toDigitsCore]
  by_cases h : n / 10 = 0
  · simp [h]
  · rw [if_neg h, toDigitsCore_append]
    simp

/-- Different retry indices yield different candidate directory names. -/
lemma candidate_injective (path : String) : Function.Injective (candidate path) := by
  have key : ∀ b, "new" ++ path ≠ "new" ++ Nat.repr (b + 2) ++ path := by
    intro b h
    have hd := congrArg String.data h
    simp only [String.data_append, List.append_assoc] at hd
    have h1 := List.append_cancel_left hd
    have hlen := congrArg List.length h1
    rw [List.length_append] at hlen
    have h0 : (Nat.repr (b + 2)).data = [] :=
      List.length_eq_zero.mp (by omega)
    exact toDigits_ne_nil (b + 2) h0
  intro a b h
  cases a with
  | zero =>
    cases b with
    | zero => rfl
    | succ b => exact absurd h (key b)
  | succ a =>
    cases b with
    | zero => exact absurd h.symm (key a)
    | succ b =>
      have hd := congrArg String.data h
      simp only [candidate, String.data_append, List.append_assoc] at hd
      have h1 := List.append_cancel_left hd
      have h2 := List.append_cancel_right h1
      have h3 := repr_injective (String.ext h2)
      omega

/-- Among the first `existing.length + 1` candidate names at least one is
not an existing directory. -/
lemma exists_free_candidate (path : String) (existing : List String) :
    ∃ j, j ≤ existing.length ∧ candidate path j ∉ existing := by
  by_contra hcon
  push_neg at hcon
  have hsub : ((List.range (existing.length + 1)).map (candidate path)) ⊆ existing := by
    intro x hx
    obtain ⟨j, hj, rfl⟩ := List.mem_map.mp hx
    exact hcon j (Nat.lt_succ_iff.mp (List.mem_range.mp hj))
  have hnodup : ((List.range (existing.length + 1)).map (candidate path)).Nodup :=
    (List.nodup_range _).map (candidate_injective path)
  have h1 : ((List.range (existing.length + 1)).map (candidate path)).toFinset.card
      = existing.length + 1 := by
    rw [List.toFinset_card_of_nodup hnodup]
    simp
  have h2 : ((List.range (existing.length + 1)).map (candidate path)).toFinset
      ⊆ existing.toFinset := by
    intro x hx
    rw [List.mem_toFinset] at hx ⊢
    exact hsub hx
  have h3 := Finset.card_le_card h2
  have h4 := List.toFinset_card_le existing
  omega

/-- If some candidate within the fuel budget is free, the retry loop
stops at the first free candidate, and every candidate tried before it
was an existing directory. -/
lemma directory_setup_loop_spec (path : String) (existing : List String) :
    ∀ fuel k, (∃ j, j < fuel ∧ candidate path (k + j) ∉ existing) →
      ∃ m, directory_setup_loop path existing fuel k = some (candidate path m) ∧
        candidate path m ∉ existing ∧ k ≤ m ∧
        ∀ j, k ≤ j → j < m → candidate path j ∈ existing := by
  intro fuel
  induction fuel with
  | zero =>
    rintro k ⟨j, hj, _⟩
    exact absurd hj (Nat.not_lt_zero j)
  | succ fuel ih =>
    rintro k ⟨j, hj, hfree⟩
    by_cases hk : candidate path k ∈ existing
    · rw [directory_setup_loop, if_pos hk]
      have hex : ∃ j2, j2 < fuel ∧ candidate path (k + 1 + j2) ∉ existing := by
        cases j with
        | zero => exact absurd hk (by simpa using hfree)
        | succ j2 =>
          refine ⟨j2, by omega, ?_⟩
          have harith : k + 1 + j2 = k + (j2 + 1) := by omega
          rw [harith]
          exact hfree
      obtain ⟨m, hm, hfree2, hle, hall⟩ := ih (k + 1) hex
      refine ⟨m, hm, hfree2, by omega, ?_⟩
      intro j2 hj1 hj2
      rcases Nat.eq_or_lt_of_le hj1 with heq | hlt
      · rw [← heq]
        exact hk
      · exact hall j2 hlt hj2
    · rw [directory_setup_loop, if_neg hk]
      exact ⟨k, rfl, hk, le_refl k, fun j2 h1 h2 => absurd (lt_of_le_of_lt h1 h2) (lt_irrefl k)⟩

/-- Claim C5 (confirmed): against any fixed set of directories existing
at call time, the allocator returns a name that does not exist - never an
existing name - and it is the first name in the candidate sequence
('new' + path, then 'new' + str(i) + path for i = 2, 3, ...) whose
creation succeeds: every earlier candidate was an existing directory. -/
theorem directory_setup_spec (path : String) (existing : List String) :
    ∃ m, directory_setup path existing = some (candidate path m) ∧
      candidate path m ∉ existing ∧
      ∀ j, j < m → candidate path j ∈ existing := by
  obtain ⟨j, hj, hfree⟩ := exists_free_candidate path existing
  obtain ⟨m, hm, hfree2, _, hall⟩ := directory_setup_loop_spec path existing
    (existing.length + 1) 0 ⟨j, by omega, by simpa using hfree⟩
  exact ⟨m, hm, hfree2, fun j2 hj2 => hall j2 (Nat.zero_le j2) hj2⟩

end FFmpegScript
